import Mathlib

/-
Verification of the tiling / autofocus-recovery core of `autoMontage.py`
(SEM montage acquisition script).

Embedding conventions:
* Python floats are modelled as rationals (`ℚ`); the script's arithmetic on
  the inputs of interest is exact, so `ℚ` reproduces it.
* Python `int(x)` is truncation toward zero, modelled by `truncInt`.
* Python's float `%` (for a nonzero divisor) is floored modulo, modelled by
  `pymod`; `x % 0.0` raises `ZeroDivisionError`, modelled by the
  `Except PyError` result of `computeCapturePositions`.
* The instrument (EXT) is modelled as registers (stage X, focus coarse value,
  working distance) plus an oracle giving the focus/working-distance values
  produced by each successive `RunAutoAfc` invocation; calls are logged as
  events so that the exact call sequence can be examined.
-/

namespace AutoMontage

/-- Python `int()` applied to a rational: truncation toward zero. -/
def truncInt (q : ℚ) : ℤ := if 0 ≤ q then ⌊q⌋ else ⌈q⌉

/-- Python float `%` for a nonzero divisor: floored modulo `a - b*⌊a/b⌋`. -/
def pymod (a b : ℚ) : ℚ := a - b * ⌊a / b⌋

/-- Errors raisable around `computeCapturePositions`: `zeroDivisionError` is
Python's `ZeroDivisionError` (raised by `% 0.0`); `configurationError` is the
ConfigurationError of the spec's error taxonomy (the source never raises it,
it is present so that statements about it can be made). -/
inductive PyError
  | zeroDivisionError
  | configurationError
deriving DecidableEq

/-- Column visited in position `j` of row `row` of the serpentine scan
(source lines 236-245: even rows ascend, odd rows descend). -/
def serpCol (c row j : ℕ) : ℕ := if row % 2 = 0 then j else c - 1 - j

/-- One row of capture positions (source lines 236-245): even rows map over
`range c`, odd rows over the reversed range, each position truncated to int. -/
def rowPositions (xStart yStart effW effH : ℚ) (c row : ℕ) : List (ℤ × ℤ) :=
  if row % 2 = 0 then
    (List.range c).map
      (fun col : ℕ => (truncInt (xStart + (col : ℚ) * effW), truncInt (yStart + (row : ℚ) * effH)))
  else
    ((List.range c).reverse).map
      (fun col : ℕ => (truncInt (xStart + (col : ℚ) * effW), truncInt (yStart + (row : ℚ) * effH)))

/-- The zig-zag position list built row by row by appending (source lines
232-245, the `for row in range(numTilesHeight)` loop). -/
def capturePositionsList (xStart yStart effW effH : ℚ) (c : ℕ) : ℕ → List (ℤ × ℤ)
  | 0 => []
  | r + 1 => capturePositionsList xStart yStart effW effH c r ++ rowPositions xStart yStart effW effH c r

/-- Effective tile height (source line 215): `int(tileHeight * (1 - tileOverlap))`. -/
def effectiveTileH (tileHeight tileOverlap : ℚ) : ℤ := truncInt (tileHeight * (1 - tileOverlap))

/-- Effective tile width (source line 216): `int(tileWidth * (1 - tileOverlap))`. -/
def effectiveTileW (tileWidth tileOverlap : ℚ) : ℤ := truncInt (tileWidth * (1 - tileOverlap))

/-- `computeCapturePositions` (source lines 209-247).  Mirrors the source:
effective tile sizes by `int()` truncation, adjustment of the totals by `%`
(raising `ZeroDivisionError` when an effective size is `0`, first for the
height at line 219, then for the width at line 220), conversion to nm by
`* 1E6`, tile counts by `int()` of the quotients, and the zig-zag list.
Returns `(capturePositions, numTilesHeight, numTilesWidth)`. -/
def computeCapturePositions (startCoords : ℚ × ℚ)
    (totalHeight totalWidth tileHeight tileWidth tileOverlap : ℚ) :
    Except PyError (List (ℤ × ℤ) × ℤ × ℤ) :=
  let xStart := startCoords.1
  let yStart := startCoords.2
  let effectiveTileHeight : ℤ := effectiveTileH tileHeight tileOverlap
  let effectiveTileWidth : ℤ := effectiveTileW tileWidth tileOverlap
  if effectiveTileHeight = 0 then .error .zeroDivisionError else
  let totalHeight1 := totalHeight - pymod totalHeight (effectiveTileHeight : ℚ)
  if effectiveTileWidth = 0 then .error .zeroDivisionError else
  let totalWidth1 := totalWidth - pymod totalWidth (effectiveTileWidth : ℚ)
  let totalHeight2 := totalHeight1 * 1000000
  let totalWidth2 := totalWidth1 * 1000000
  let effH : ℚ := (effectiveTileHeight : ℚ) * 1000000
  let effW : ℚ := (effectiveTileWidth : ℚ) * 1000000
  let numTilesHeight : ℤ := truncInt (totalHeight2 / effH)
  let numTilesWidth : ℤ := truncInt (totalWidth2 / effW)
  .ok (capturePositionsList xStart yStart effW effH numTilesWidth.toNat numTilesHeight.toNat,
       numTilesHeight, numTilesWidth)

/-- Truncation toward zero of an integer is that integer. -/
theorem truncInt_intCast (n : ℤ) : truncInt (n : ℚ) = n := by
  unfold truncInt
  split <;> simp

/-- Truncation toward zero is strictly monotone across a gap of at least `2`. -/
theorem truncInt_lt_truncInt {a b : ℚ} (h : a + 2 ≤ b) : truncInt a < truncInt b := by
  unfold truncInt
  rcases le_or_lt 0 a with ha | ha
  · have hb : (0 : ℚ) ≤ b := by linarith
    rw [if_pos ha, if_pos hb]
    have h1 : ⌊a + (2 : ℤ)⌋ ≤ ⌊b⌋ := Int.floor_le_floor (by push_cast; linarith)
    rw [Int.floor_add_int] at h1
    omega
  · rw [if_neg (not_le.mpr ha)]
    rcases le_or_lt 0 b with hb | hb
    · rw [if_pos hb]
      have hc : ⌈a⌉ ≤ 0 := Int.ceil_le.mpr (by push_cast; linarith)
      rcases le_or_lt 1 b with hb1 | hb1
      · have h1 : (1 : ℤ) ≤ ⌊b⌋ := Int.le_floor.mpr (by push_cast; linarith)
        omega
      · have h1 : ⌈a⌉ ≤ -1 := Int.ceil_le.mpr (by push_cast; linarith)
        have h2 : (0 : ℤ) ≤ ⌊b⌋ := Int.floor_nonneg.mpr hb
        omega
    · rw [if_neg (not_le.mpr hb)]
      have h1 : ⌈a + (2 : ℤ)⌉ ≤ ⌈b⌉ := Int.ceil_le_ceil (by push_cast; linarith)
      rw [Int.ceil_add_int] at h1
      omega

/-- Floored modulo with a positive divisor is nonnegative. -/
theorem pymod_nonneg {b : ℚ} (hb : 0 < b) (a : ℚ) : 0 ≤ pymod a b := by
  unfold pymod
  have h1 : ((⌊a / b⌋ : ℚ)) ≤ a / b := Int.floor_le (a / b)
  have h2 : b * ((⌊a / b⌋ : ℚ)) ≤ b * (a / b) := mul_le_mul_of_nonneg_left h1 hb.le
  have h3 : b * (a / b) = a := by field_simp
  linarith

/-- Floored modulo with a positive divisor is below the divisor. -/
theorem pymod_lt {b : ℚ} (hb : 0 < b) (a : ℚ) : pymod a b < b := by
  unfold pymod
  have h1 : a / b < (⌊a / b⌋ : ℚ) + 1 := Int.lt_floor_add_one (a / b)
  have h2 : b * (a / b) < b * ((⌊a / b⌋ : ℚ) + 1) := (mul_lt_mul_left hb).mpr h1
  have h3 : b * (a / b) = a := by field_simp
  nlinarith

/-- Length of one serpentine row. -/
theorem rowPositions_length (xS yS effW effH : ℚ) (c row : ℕ) :
    (rowPositions xS yS effW effH c row).length = c := by
  unfold rowPositions
  split <;> simp

/-- Element `j` of serpentine row `row` is the position of column `serpCol c row j`. -/
theorem rowPositions_getElem (xS yS effW effH : ℚ) (c row j : ℕ) (hj : j < c) :
    (rowPositions xS yS effW effH c row)[j]? =
      some (truncInt (xS + (serpCol c row j : ℚ) * effW), truncInt (yS + (row : ℚ) * effH)) := by
  unfold rowPositions serpCol
  split
  · rw [List.getElem?_map, List.getElem?_range hj]
    rfl
  · rw [List.getElem?_map]
    rw [List.getElem?_reverse (by simpa using hj)]
    rw [List.length_range]
    rw [List.getElem?_range (by omega)]
    rfl

/-- Length of the zig-zag position list. -/
theorem capturePositionsList_length (xS yS effW effH : ℚ) (c : ℕ) :
    ∀ r, (capturePositionsList xS yS effW effH c r).length = r * c := by
  intro r
  induction r with
  | zero => simp [capturePositionsList]
  | succ r ih =>
    rw [capturePositionsList]
    rw [List.length_append, ih, rowPositions_length]
    ring

/-- The zig-zag list with no columns is empty. -/
theorem capturePositionsList_c_zero (xS yS effW effH : ℚ) :
    ∀ r, capturePositionsList xS yS effW effH 0 r = [] := by
  intro r
  induction r with
  | zero => rfl
  | succ r ih =>
    rw [capturePositionsList, ih]
    unfold rowPositions
    split <;> simp

/-- Indexing the zig-zag list: entry `i*c + j` is entry `j` of row `i`. -/
theorem capturePositionsList_getElem (xS yS effW effH : ℚ) (c : ℕ) :
    ∀ r i j, i < r → j < c →
      (capturePositionsList xS yS effW effH c r)[i * c + j]? =
        (rowPositions xS yS effW effH c i)[j]? := by
  intro r
  induction r with
  | zero => omega
  | succ r ih =>
    intro i j hi hj
    rcases Nat.lt_or_ge i r with h | h
    · rw [capturePositionsList]
      rw [List.getElem?_append_left]
      · exact ih i j h hj
      · rw [capturePositionsList_length]
        calc i * c + j < i * c + c := by omega
        _ = (i + 1) * c := by ring
        _ ≤ r * c := Nat.mul_le_mul_right c h
    · have hi' : i = r := by omega
      subst hi'
      rw [capturePositionsList]
      rw [List.getElem?_append_right (by rw [capturePositionsList_length]; omega)]
      rw [capturePositionsList_length]
      congr 1
      omega

/-- When both effective tile sizes are nonzero, `computeCapturePositions`
succeeds and its tile counts are the floors of the totals over the effective
sizes (the `% `-adjustment followed by the nm conversion cancels exactly). -/
theorem computeCapturePositions_ok (sc : ℚ × ℚ) (tH tW th tw ov : ℚ)
    (hH : effectiveTileH th ov ≠ 0) (hW : effectiveTileW tw ov ≠ 0) :
    computeCapturePositions sc tH tW th tw ov =
      .ok (capturePositionsList sc.1 sc.2 ((effectiveTileW tw ov : ℚ) * 1000000)
             ((effectiveTileH th ov : ℚ) * 1000000)
             (⌊tW / (effectiveTileW tw ov : ℚ)⌋).toNat (⌊tH / (effectiveTileH th ov : ℚ)⌋).toNat,
           ⌊tH / (effectiveTileH th ov : ℚ)⌋, ⌊tW / (effectiveTileW tw ov : ℚ)⌋) := by
  have key : ∀ (b : ℤ), b ≠ 0 → ∀ a : ℚ,
      truncInt ((a - pymod a (b : ℚ)) * 1000000 / ((b : ℚ) * 1000000)) = ⌊a / (b : ℚ)⌋ := by
    intro b hb a
    have hb' : (b : ℚ) ≠ 0 := Int.cast_ne_zero.mpr hb
    have h1 : a - pymod a (b : ℚ) = (b : ℚ) * (⌊a / (b : ℚ)⌋ : ℚ) := by unfold pymod; ring
    rw [h1]
    have h2 : (b : ℚ) * (⌊a / (b : ℚ)⌋ : ℚ) * 1000000 / ((b : ℚ) * 1000000) =
        ((⌊a / (b : ℚ)⌋ : ℤ) : ℚ) := by
      field_simp
      ring
    rw [h2, truncInt_intCast]
  simp only [computeCapturePositions]
  rw [if_neg hH, if_neg hW]
  rw [key _ hH tH, key _ hW tW]

/-- Concrete evaluation: the effective tile size for tile 1, overlap 0 is 1. -/
theorem effectiveTileH_unit : effectiveTileH 1 0 = 1 := by
  unfold effectiveTileH truncInt
  norm_num

/-- Concrete evaluation: the effective tile size for tile 1, overlap 0 is 1. -/
theorem effectiveTileW_unit : effectiveTileW 1 0 = 1 := by
  unfold effectiveTileW truncInt
  norm_num

/-- Concrete evaluation of a single serpentine row of one column at the origin. -/
theorem rowPositions_unit : rowPositions 0 0 1000000 1000000 1 0 = [(0, 0)] := by
  unfold rowPositions
  rw [if_pos rfl]
  rw [show List.range 1 = [0] from rfl]
  simp only [List.map_cons, List.map_nil]
  unfold truncInt
  norm_num

/-- Concrete evaluation of the 1x1 zig-zag list at the origin. -/
theorem capturePositionsList_unit : capturePositionsList 0 0 1000000 1000000 1 1 = [(0, 0)] := by
  rw [show (1 : ℕ) = 0 + 1 from rfl, capturePositionsList]
  rw [capturePositionsList, rowPositions_unit]
  rfl

/-- Concrete evaluation: a unit montage (1x1 grid) at the origin. -/
theorem compute_unit_ok :
    computeCapturePositions (0, 0) 1 1 1 1 0 = .ok ([(0, 0)], 1, 1) := by
  rw [computeCapturePositions_ok (0, 0) 1 1 1 1 0
    (by rw [effectiveTileH_unit]; norm_num) (by rw [effectiveTileW_unit]; norm_num)]
  rw [effectiveTileH_unit, effectiveTileW_unit]
  norm_num
  exact capturePositionsList_unit

/-- C2: for every input with positive effective tile dimensions,
`computeCapturePositions` emits positions row by row; entry `i*numCols + j` is
the position of column `serpCol` (ascending on even rows, descending on odd
rows), equal to the truncations of `xStart + col*effW` and `yStart + row*effH`
(in nm); within a row the x coordinates are strictly ascending on even rows
and strictly descending on odd rows; the first emitted position is
`(truncate xStart, truncate yStart)`. -/
theorem c2_serpentine_positions (sc : ℚ × ℚ) (tH tW th tw ov : ℚ)
    (hH : 0 < effectiveTileH th ov) (hW : 0 < effectiveTileW tw ov)
    (ps : List (ℤ × ℤ)) (nR nC : ℤ)
    (hok : computeCapturePositions sc tH tW th tw ov = .ok (ps, nR, nC)) :
    ps.length = nR.toNat * nC.toNat ∧
    (∀ i j, i < nR.toNat → j < nC.toNat →
      ps[i * nC.toNat + j]? =
        some (truncInt (sc.1 + (serpCol nC.toNat i j : ℚ) * ((effectiveTileW tw ov : ℚ) * 1000000)),
              truncInt (sc.2 + (i : ℚ) * ((effectiveTileH th ov : ℚ) * 1000000)))) ∧
    (∀ i j p q, i < nR.toNat → j + 1 < nC.toNat →
      ps[i * nC.toNat + j]? = some p → ps[i * nC.toNat + (j + 1)]? = some q →
      (i % 2 = 0 → p.1 < q.1) ∧ (i % 2 = 1 → q.1 < p.1)) ∧
    (0 < nR.toNat → 0 < nC.toNat → ps.head? = some (truncInt sc.1, truncInt sc.2)) := by
  rw [computeCapturePositions_ok sc tH tW th tw ov hH.ne' hW.ne'] at hok
  simp only [Except.ok.injEq, Prod.mk.injEq] at hok
  obtain ⟨hps, hnR, hnC⟩ := hok
  subst hps hnR hnC
  have key : ∀ i j, i < (⌊tH / (effectiveTileH th ov : ℚ)⌋).toNat →
      j < (⌊tW / (effectiveTileW tw ov : ℚ)⌋).toNat →
      (capturePositionsList sc.1 sc.2 ((effectiveTileW tw ov : ℚ) * 1000000)
          ((effectiveTileH th ov : ℚ) * 1000000)
          (⌊tW / (effectiveTileW tw ov : ℚ)⌋).toNat
          (⌊tH / (effectiveTileH th ov : ℚ)⌋).toNat)[i * (⌊tW / (effectiveTileW tw ov : ℚ)⌋).toNat + j]? =
        some (truncInt (sc.1 + (serpCol (⌊tW / (effectiveTileW tw ov : ℚ)⌋).toNat i j : ℚ) *
                ((effectiveTileW tw ov : ℚ) * 1000000)),
              truncInt (sc.2 + (i : ℚ) * ((effectiveTileH th ov : ℚ) * 1000000))) := by
    intro i j hi hj
    rw [capturePositionsList_getElem _ _ _ _ _ _ i j hi hj]
    exact rowPositions_getElem _ _ _ _ _ _ _ hj
  have hW1 : (1 : ℚ) ≤ (effectiveTileW tw ov : ℚ) := by exact_mod_cast hW
  have heffW2 : (2 : ℚ) ≤ (effectiveTileW tw ov : ℚ) * 1000000 := by nlinarith
  refine ⟨capturePositionsList_length _ _ _ _ _ _, key, ?_, ?_⟩
  · intro i j p q hi hjj hp hq
    rw [key i j hi (by omega), Option.some_inj] at hp
    rw [key i (j + 1) hi hjj, Option.some_inj] at hq
    subst hp hq
    constructor
    · intro hpar
      simp only [serpCol, if_pos hpar]
      apply truncInt_lt_truncInt
      push_cast
      ring_nf
      linarith
    · intro hpar
      have h0 : ¬ ((i : ℕ) % 2 = 0) := by omega
      simp only [serpCol, if_neg h0]
      apply truncInt_lt_truncInt
      have hnat : (⌊tW / (effectiveTileW tw ov : ℚ)⌋).toNat - 1 - j =
          ((⌊tW / (effectiveTileW tw ov : ℚ)⌋).toNat - 1 - (j + 1)) + 1 := by omega
      rw [hnat]
      push_cast
      ring_nf
      linarith
  · intro h0r h0c
    rw [List.head?_eq_getElem?]
    have e := key 0 0 h0r h0c
    rw [show 0 * (⌊tW / (effectiveTileW tw ov : ℚ)⌋).toNat + 0 = 0 from by simp] at e
    simp only [serpCol, if_pos rfl] at e
    rw [e]
    norm_num

/-- C2 witness: the serpentine theorem instantiated to a concrete 1x1 montage. -/
theorem c2_serpentine_positions_witness :
    ([((0 : ℤ), (0 : ℤ))].length = (1 : ℤ).toNat * (1 : ℤ).toNat ∧
    (∀ i j, i < (1 : ℤ).toNat → j < (1 : ℤ).toNat →
      [((0 : ℤ), (0 : ℤ))][i * (1 : ℤ).toNat + j]? =
        some (truncInt ((0 : ℚ×ℚ).1 + (serpCol (1 : ℤ).toNat i j : ℚ) * ((effectiveTileW 1 0 : ℚ) * 1000000)),
              truncInt ((0 : ℚ×ℚ).2 + (i : ℚ) * ((effectiveTileH 1 0 : ℚ) * 1000000)))) ∧
    (∀ i j p q, i < (1 : ℤ).toNat → j + 1 < (1 : ℤ).toNat →
      [((0 : ℤ), (0 : ℤ))][i * (1 : ℤ).toNat + j]? = some p →
      [((0 : ℤ), (0 : ℤ))][i * (1 : ℤ).toNat + (j + 1)]? = some q →
      (i % 2 = 0 → p.1 < q.1) ∧ (i % 2 = 1 → q.1 < p.1)) ∧
    (0 < (1 : ℤ).toNat → 0 < (1 : ℤ).toNat →
      [((0 : ℤ), (0 : ℤ))].head? = some (truncInt (0 : ℚ×ℚ).1, truncInt (0 : ℚ×ℚ).2))) :=
  c2_serpentine_positions 0 1 1 1 1 0
    (by rw [effectiveTileH_unit]; norm_num) (by rw [effectiveTileW_unit]; norm_num)
    [(0, 0)] 1 1 (by exact compute_unit_ok)

/-- C4: for every input with positive effective tile dimensions, the tile
counts cover at most the requested totals, and the uncovered remainder in each
axis is strictly less than the effective tile dimension (in the pre-conversion
unit of the totals). -/
theorem c4_truncation_coverage (sc : ℚ × ℚ) (tH tW th tw ov : ℚ)
    (hH : 0 < effectiveTileH th ov) (hW : 0 < effectiveTileW tw ov)
    (ps : List (ℤ × ℤ)) (nR nC : ℤ)
    (hok : computeCapturePositions sc tH tW th tw ov = .ok (ps, nR, nC)) :
    ((nR * effectiveTileH th ov : ℤ) : ℚ) ≤ tH ∧
    tH - ((nR * effectiveTileH th ov : ℤ) : ℚ) < ((effectiveTileH th ov : ℤ) : ℚ) ∧
    ((nC * effectiveTileW tw ov : ℤ) : ℚ) ≤ tW ∧
    tW - ((nC * effectiveTileW tw ov : ℤ) : ℚ) < ((effectiveTileW tw ov : ℤ) : ℚ) := by
  rw [computeCapturePositions_ok sc tH tW th tw ov hH.ne' hW.ne'] at hok
  simp only [Except.ok.injEq, Prod.mk.injEq] at hok
  obtain ⟨-, hnR, hnC⟩ := hok
  subst hnR hnC
  have hHq : (0 : ℚ) < (effectiveTileH th ov : ℚ) := by exact_mod_cast hH
  have hWq : (0 : ℚ) < (effectiveTileW tw ov : ℚ) := by exact_mod_cast hW
  have e1 : ((⌊tH / (effectiveTileH th ov : ℚ)⌋ * effectiveTileH th ov : ℤ) : ℚ) =
      tH - pymod tH (effectiveTileH th ov : ℚ) := by
    unfold pymod
    push_cast
    ring
  have e2 : ((⌊tW / (effectiveTileW tw ov : ℚ)⌋ * effectiveTileW tw ov : ℤ) : ℚ) =
      tW - pymod tW (effectiveTileW tw ov : ℚ) := by
    unfold pymod
    push_cast
    ring
  have b1 := pymod_nonneg hHq tH
  have b2 := pymod_lt hHq tH
  have b3 := pymod_nonneg hWq tW
  have b4 := pymod_lt hWq tW
  refine ⟨by rw [e1]; linarith, by rw [e1]; linarith, by rw [e2]; linarith, by rw [e2]; linarith⟩

/-- C4 witness: the truncation-coverage theorem at a concrete unit montage. -/
theorem c4_truncation_coverage_witness :
    (((1 * effectiveTileH 1 0 : ℤ) : ℚ) ≤ 1 ∧
    (1 : ℚ) - ((1 * effectiveTileH 1 0 : ℤ) : ℚ) < ((effectiveTileH 1 0 : ℤ) : ℚ) ∧
    ((1 * effectiveTileW 1 0 : ℤ) : ℚ) ≤ 1 ∧
    (1 : ℚ) - ((1 * effectiveTileW 1 0 : ℤ) : ℚ) < ((effectiveTileW 1 0 : ℤ) : ℚ)) :=
  c4_truncation_coverage 0 1 1 1 1 0
    (by rw [effectiveTileH_unit]; norm_num) (by rw [effectiveTileW_unit]; norm_num)
    [(0, 0)] 1 1 (by exact compute_unit_ok)

/-- C5 counterexample: the claim says `computeCapturePositions` fails with a
ConfigurationError whenever an effective tile dimension is `<= 0`; at tile 1
with overlap 1/5 the effective dimension truncates to 0 and the code instead
crashes with a ZeroDivisionError (from `totalHeight % 0.0`), not a
ConfigurationError. -/
theorem c5_counterexample :
    effectiveTileH 1 (1 / 5) ≤ 0 ∧
    computeCapturePositions (0, 0) 1 1 1 1 (1 / 5) = .error .zeroDivisionError ∧
    computeCapturePositions (0, 0) 1 1 1 1 (1 / 5) ≠ .error .configurationError := by
  have h : effectiveTileH 1 (1 / 5) = 0 := by
    unfold effectiveTileH truncInt
    norm_num
  refine ⟨le_of_eq h, ?_, ?_⟩
  · simp only [computeCapturePositions]
    rw [if_pos h]
  · simp only [computeCapturePositions]
    rw [if_pos h]
    simp

/-- C5 amended: when an effective tile dimension truncates to 0 the code
raises ZeroDivisionError (for the height at line 219, else for the width at
line 220); it never raises a ConfigurationError; and when both effective
dimensions are nonzero a degenerate grid (numRows or numCols `<= 0`) silently
yields an empty position list instead of an error. -/
theorem c5_amended_error_behavior (sc : ℚ × ℚ) (tH tW th tw ov : ℚ) :
    (effectiveTileH th ov = 0 →
      computeCapturePositions sc tH tW th tw ov = .error .zeroDivisionError) ∧
    (effectiveTileH th ov ≠ 0 → effectiveTileW tw ov = 0 →
      computeCapturePositions sc tH tW th tw ov = .error .zeroDivisionError) ∧
    computeCapturePositions sc tH tW th tw ov ≠ .error .configurationError ∧
    (∀ ps nR nC, computeCapturePositions sc tH tW th tw ov = .ok (ps, nR, nC) →
      nR ≤ 0 ∨ nC ≤ 0 → ps = []) := by
  refine ⟨?_, ?_, ?_, ?_⟩
  · intro h
    simp only [computeCapturePositions]
    rw [if_pos h]
  · intro h1 h2
    simp only [computeCapturePositions]
    rw [if_neg h1, if_pos h2]
  · by_cases h1 : effectiveTileH th ov = 0
    · simp only [computeCapturePositions]
      rw [if_pos h1]
      simp
    · by_cases h2 : effectiveTileW tw ov = 0
      · simp only [computeCapturePositions]
        rw [if_neg h1, if_pos h2]
        simp
      · rw [computeCapturePositions_ok sc tH tW th tw ov h1 h2]
        simp
  · intro ps nR nC hok hdeg
    by_cases h1 : effectiveTileH th ov = 0
    · rw [(by simp only [computeCapturePositions]; rw [if_pos h1] :
        computeCapturePositions sc tH tW th tw ov = .error .zeroDivisionError)] at hok
      exact absurd hok (by simp)
    · by_cases h2 : effectiveTileW tw ov = 0
      · rw [(by simp only [computeCapturePositions]; rw [if_neg h1, if_pos h2] :
          computeCapturePositions sc tH tW th tw ov = .error .zeroDivisionError)] at hok
        exact absurd hok (by simp)
      · rw [computeCapturePositions_ok sc tH tW th tw ov h1 h2] at hok
        simp only [Except.ok.injEq, Prod.mk.injEq] at hok
        obtain ⟨hps, hnR, hnC⟩ := hok
        rcases hdeg with hd | hd
        · rw [← hps, show (⌊tH / (effectiveTileH th ov : ℚ)⌋).toNat = 0 from by omega]
          rfl
        · rw [← hps, show (⌊tW / (effectiveTileW tw ov : ℚ)⌋).toNat = 0 from by omega]
          exact capturePositionsList_c_zero _ _ _ _ _

/-- C5 amended witness: concrete instantiations of each clause — a zero
effective height raises ZeroDivisionError; a run never yields
ConfigurationError; a degenerate grid (total smaller than one effective tile)
yields the empty list. -/
theorem c5_amended_error_behavior_witness :
    computeCapturePositions (0, 0) 1 1 1 1 (1 / 2) = .error .zeroDivisionError ∧
    computeCapturePositions (0, 0) 1 1 1 1 0 ≠ .error .configurationError ∧
    ([] : List (ℤ × ℤ)) = [] := by
  refine ⟨?_, ?_, ?_⟩
  · exact (c5_amended_error_behavior (0, 0) 1 1 1 1 (1 / 2)).1
      (by unfold effectiveTileH truncInt; norm_num)
  · exact (c5_amended_error_behavior (0, 0) 1 1 1 1 0).2.2.1
  · exact (c5_amended_error_behavior (0, 0) 1 1 5 5 0).2.2.2 [] 0 0
      (by
        rw [computeCapturePositions_ok (0, 0) 1 1 5 5 0
          (by unfold effectiveTileH truncInt; norm_num)
          (by unfold effectiveTileW truncInt; norm_num)]
        have h5 : effectiveTileH 5 0 = 5 := by unfold effectiveTileH truncInt; norm_num
        have h5' : effectiveTileW 5 0 = 5 := by unfold effectiveTileW truncInt; norm_num
        rw [h5, h5']
        norm_num
        rfl)
      (Or.inl le_rfl)

/-- C3: on the spec's example (totalHeight 6.4, totalWidth 9, tile 1.0 x 1.0,
overlap 0.2, units mm as the script supplies them) the code truncates the
effective tile size `0.8` to `0` before the nm conversion and raises
ZeroDivisionError for every start coordinate — whereas with the same
geometry expressed in the base unit (nm) before the call, as the spec's unit
discipline requires, the very same code yields the claimed 8 x 11 grid of 88
positions. -/
theorem c3_example_zero_division :
    (∀ startCoords : ℚ × ℚ,
      computeCapturePositions startCoords 6.4 9 1 1 0.2 = .error .zeroDivisionError) ∧
    (∃ ps : List (ℤ × ℤ),
      computeCapturePositions (0, 0) 6400000 9000000 1000000 1000000 0.2 = .ok (ps, 8, 11) ∧
      ps.length = 88) := by
  constructor
  · intro sc
    have h : effectiveTileH 1 0.2 = 0 := by
      unfold effectiveTileH truncInt
      norm_num
    simp only [computeCapturePositions]
    rw [if_pos h]
  · have hH : effectiveTileH 1000000 0.2 = 800000 := by
      unfold effectiveTileH truncInt
      norm_num
    have hW : effectiveTileW 1000000 0.2 = 800000 := by
      unfold effectiveTileW truncInt
      norm_num
    have hok := computeCapturePositions_ok (0, 0) 6400000 9000000 1000000 1000000 0.2
      (by rw [hH]; norm_num) (by rw [hW]; norm_num)
    rw [hH, hW] at hok
    norm_num at hok ⊢
    refine ⟨_, hok, ?_⟩
    rw [capturePositionsList_length]
    decide

/-- Oracle for the instrument's autofocus primitive: `afc k` is the pair
(focus coarse value, working distance) that the instrument holds after the
`k`-th `RunAutoAfc()` invocation (0-indexed). -/
structure Instrument where
  afc : ℕ → ℚ × ℚ

/-- Instrument registers touched by `recursiveAutofocus`: the stage X
position, the focus coarse value, the working distance readout, and the number
of autofocus invocations made so far (the index into the oracle). -/
structure AfState where
  stageX : ℚ
  focus : ℚ
  wd : ℚ
  calls : ℕ
deriving DecidableEq

/-- Side-effecting instrument calls made by `recursiveAutofocus`, in order:
`RunStageMove(X=...)`, `RunAutoAfc()` and `SetFocus(Coarse=...)`. -/
inductive AfEvent
  | move (x : ℚ)
  | afcRun
  | setFocus (c : ℚ)
deriving DecidableEq

/-- `recursiveAutofocus` (source lines 249-285).  Mirrors the source: return
`False` when the budget is exhausted (`maxRecursions <= 0`; the budget is a
`ℕ` here, matching every nonnegative Python value); move the stage to
`xStart + offset` when `offset > 0`; read the old focus and working distance;
run the autofocus primitive; read the new working distance; succeed
immediately if the working-distance change is within the threshold; otherwise
restore the old focus, recurse from the new probe with offset
`int(0.1*tileWidth)` and a decremented budget, and restore the stage to
`xStart` after the recursive call returns.  Returns the success flag, the
final instrument state, and the list of side-effecting calls in order. -/
def recursiveAutofocus (ins : Instrument) (tileWidth focusThreshold xStart : ℚ) (offset : ℤ) :
    ℕ → AfState → Bool × AfState × List AfEvent
  | 0, s => (false, s, [])
  | n + 1, s =>
    let xNew : ℚ := xStart + (offset : ℚ)
    let s1 : AfState := if 0 < offset then { s with stageX := xNew } else s
    let moveEvs : List AfEvent := if 0 < offset then [AfEvent.move xNew] else []
    let oldFocus := s1.focus
    let oldWorkingDistance := s1.wd
    let newFocus := (ins.afc s1.calls).1
    let newWorkingDistance := (ins.afc s1.calls).2
    let s2 : AfState := { s1 with focus := newFocus, wd := newWorkingDistance, calls := s1.calls + 1 }
    if |newWorkingDistance - oldWorkingDistance| ≤ focusThreshold then
      (true, s2, moveEvs ++ [AfEvent.afcRun])
    else
      let s3 : AfState := { s2 with focus := oldFocus }
      let r := recursiveAutofocus ins tileWidth focusThreshold xNew (truncInt (0.1 * tileWidth)) n s3
      (r.1, { r.2.1 with stageX := xStart },
       moveEvs ++ [AfEvent.afcRun, AfEvent.setFocus oldFocus] ++ r.2.2 ++ [AfEvent.move xStart])

/-- The stage-move targets of an event list, in order. -/
def movesOf : List AfEvent → List ℚ
  | [] => []
  | AfEvent.move x :: es => x :: movesOf es
  | AfEvent.afcRun :: es => movesOf es
  | AfEvent.setFocus _ :: es => movesOf es

/-- The number of autofocus invocations in an event list. -/
def afcCount : List AfEvent → ℕ
  | [] => 0
  | AfEvent.afcRun :: es => afcCount es + 1
  | AfEvent.move _ :: es => afcCount es
  | AfEvent.setFocus _ :: es => afcCount es

/-- `movesOf` distributes over append. -/
theorem movesOf_append (l1 l2 : List AfEvent) :
    movesOf (l1 ++ l2) = movesOf l1 ++ movesOf l2 := by
  induction l1 with
  | nil => rfl
  | cons e es ih => cases e <;> simp [movesOf, ih]

/-- `afcCount` adds over append. -/
theorem afcCount_append (l1 l2 : List AfEvent) :
    afcCount (l1 ++ l2) = afcCount l1 + afcCount l2 := by
  induction l1 with
  | nil => simp [afcCount]
  | cons e es ih =>
    cases e with
    | move x => simp [afcCount, ih]
    | afcRun => simp [afcCount, ih]; omega
    | setFocus c => simp [afcCount, ih]

/-- The working distance read before the `k`-th autofocus invocation of a
chain that starts at working distance `w0` (every failing frame leaves the
working distance where the previous autofocus put it). -/
def wdSeq (ins : Instrument) (w0 : ℚ) : ℕ → ℚ
  | 0 => w0
  | k + 1 => (ins.afc k).2

/-- The event trace of a fully failing `recursiveAutofocus` chain whose every
frame has entry focus `f`: the optional probe move, the autofocus run, the
focus restore, the recursive trace, and the position restore. -/
def failTrace (f : ℚ) (δ : ℤ) : ℕ → ℚ → ℤ → List AfEvent
  | 0, _, _ => []
  | n + 1, x, off =>
    (if 0 < off then [AfEvent.move (x + (off : ℚ))] else []) ++
    [AfEvent.afcRun, AfEvent.setFocus f] ++
    failTrace f δ n (x + (off : ℚ)) δ ++
    [AfEvent.move x]

/-- A `recursiveAutofocus` chain in which every autofocus attempt moves the
working distance by more than the threshold returns `false`, ends with the
stage at the `xStart` of the outermost frame, leaves the focus register at its
entry value (every frame restores it before recursing), leaves the working
distance where the last autofocus attempt put it, and emits `failTrace`. -/
theorem raf_fail_aux (ins : Instrument) (w0 tw τ : ℚ) :
    ∀ (n : ℕ) (x : ℚ) (off : ℤ) (s : AfState),
      s.wd = wdSeq ins w0 s.calls →
      (∀ k, k < s.calls + n → τ < |(ins.afc k).2 - wdSeq ins w0 k|) →
      recursiveAutofocus ins tw τ x off n s =
        (false,
         { stageX := if n = 0 then s.stageX else x, focus := s.focus,
           wd := wdSeq ins w0 (s.calls + n), calls := s.calls + n },
         failTrace s.focus (truncInt (0.1 * tw)) n x off) := by
  intro n
  induction n with
  | zero =>
    intro x off s hwd _
    rw [recursiveAutofocus, failTrace]
    cases s with
    | mk a b c d =>
      simp only [AfState.wd] at hwd
      simp [hwd]
  | succ n ih =>
    intro x off s hwd hf
    have hcond : ¬ |(ins.afc s.calls).2 - wdSeq ins w0 s.calls| ≤ τ :=
      not_le.mpr (hf s.calls (by omega))
    have hwd3 : ((if 0 < off then { s with stageX := x + (off : ℚ) } else s) : AfState).wd =
        wdSeq ins w0 s.calls := by
      split <;> simpa using hwd
    have hcalls1 : ((if 0 < off then { s with stageX := x + (off : ℚ) } else s) : AfState).calls =
        s.calls := by
      split <;> rfl
    rw [recursiveAutofocus]
    simp only [hcalls1, hwd3, if_neg hcond]
    rw [ih (x + (off : ℚ)) (truncInt (0.1 * tw))
      { (if 0 < off then { s with stageX := x + (off : ℚ) } else s) with
        focus := ((if 0 < off then { s with stageX := x + (off : ℚ) } else s) : AfState).focus,
        wd := (ins.afc s.calls).2, calls := s.calls + 1 }
      (by simp [wdSeq]) (by intro k hk; apply hf k; simp at hk; omega)]
    have hfocus : ((if 0 < off then { s with stageX := x + (off : ℚ) } else s) : AfState).focus =
        s.focus := by
      split <;> rfl
    rw [failTrace]
    simp only [hfocus]
    have hadd : s.calls + 1 + n = s.calls + (n + 1) := by omega
    simp [hadd]

/-- A failing chain runs the autofocus primitive once per frame that had
budget: `n` invocations for budget `n`. -/
theorem afcCount_failTrace (f : ℚ) (δ : ℤ) :
    ∀ (n : ℕ) (x : ℚ) (off : ℤ), afcCount (failTrace f δ n x off) = n := by
  intro n
  induction n with
  | zero => intro x off; rfl
  | succ n ih =>
    intro x off
    rw [failTrace]
    rw [afcCount_append, afcCount_append, afcCount_append]
    rw [ih]
    split <;> simp [afcCount] <;> omega

/-- Stage moves of the inner part of a failing chain, which probes with a
positive displacement `δ` at every frame: the probe moves ascend cumulatively
and the restore moves unwind them in LIFO order. -/
theorem movesOf_failTrace_inner (f : ℚ) {δ : ℤ} (hδ : 0 < δ) :
    ∀ (m : ℕ) (y : ℚ), movesOf (failTrace f δ m y δ) =
      ((List.range m).map fun d : ℕ => y + ((d : ℚ) + 1) * (δ : ℚ)) ++
      (((List.range m).map fun d : ℕ => y + (d : ℚ) * (δ : ℚ)).reverse) := by
  intro m
  induction m with
  | zero => intro y; rfl
  | succ m ih =>
    intro y
    rw [failTrace, if_pos hδ]
    rw [movesOf_append, movesOf_append, movesOf_append]
    rw [ih (y + (δ : ℚ))]
    have hprobe : ((List.range m).map fun d : ℕ => (y + (δ : ℚ)) + ((d : ℚ) + 1) * (δ : ℚ)) =
        (List.range m).map ((fun d : ℕ => y + ((d : ℚ) + 1) * (δ : ℚ)) ∘ Nat.succ) := by
      apply List.map_congr_left
      intro d _
      simp only [Function.comp]
      push_cast
      ring
    have hrest : ((List.range m).map fun d : ℕ => (y + (δ : ℚ)) + (d : ℚ) * (δ : ℚ)) =
        (List.range m).map ((fun d : ℕ => y + (d : ℚ) * (δ : ℚ)) ∘ Nat.succ) := by
      apply List.map_congr_left
      intro d _
      simp only [Function.comp]
      push_cast
      ring
    rw [hprobe, hrest]
    rw [show (List.range (m + 1)) = 0 :: List.map Nat.succ (List.range m) from List.range_succ_eq_map m]
    simp only [List.map_cons, List.map_map, List.reverse_cons, movesOf]
    push_cast
    ring_nf
    simp [List.append_assoc]

/-- Stage moves of the whole failing chain started with offset `0` (as the
per-tile call in `Script` starts it): frame 0 probes at the anchor with no
move, frames `1..n-1` probe forward cumulatively, and each of the `n` frames
restores to its own entry anchor on unwind, the last two restores both being
the original anchor. -/
theorem movesOf_failTrace_top (f : ℚ) {δ : ℤ} (hδ : 0 < δ) (n : ℕ) (x : ℚ) (hn : 0 < n) :
    movesOf (failTrace f δ n x 0) =
      ((List.range (n - 1)).map fun d : ℕ => x + ((d : ℚ) + 1) * (δ : ℚ)) ++
      ((((List.range (n - 1)).map fun d : ℕ => x + (d : ℚ) * (δ : ℚ)).reverse) ++ [x]) := by
  obtain ⟨m, rfl⟩ : ∃ m, n = m + 1 := ⟨n - 1, by omega⟩
  rw [failTrace]
  rw [if_neg (by omega : ¬ (0 : ℤ) < 0)]
  rw [List.nil_append]
  rw [movesOf_append, movesOf_append]
  have hx : x + ((0 : ℤ) : ℚ) = x := by norm_num
  rw [hx]
  rw [movesOf_failTrace_inner f hδ m x]
  simp [movesOf, List.append_assoc]

/-- Stub oracle whose every autofocus attempt jumps the working distance by 2
(from 0 to 2, 4, 6, ...) and sets the focus coarse value to 0: it fails every
threshold check below 2. -/
def afcStubFail : Instrument := ⟨fun k => (0, 2 * ((k : ℚ) + 1))⟩

/-- Stub oracle whose autofocus sets focus 5 and leaves the working distance
at 3: it succeeds whenever the prior working distance was 3. -/
def afcStubOk : Instrument := ⟨fun _ => (5, 3)⟩

/-- C8: when the working-distance change of the first autofocus attempt is
within the threshold, `recursiveAutofocus` (with any positive budget, from
offset 0 as `Script` calls it) invokes the autofocus primitive exactly once,
performs no stage move at all, returns `true`, and commits the probe position
(the stage is untouched at the anchor) and the new focus. -/
theorem c8_first_attempt_success (ins : Instrument) (tw τ x : ℚ) (n : ℕ) (s : AfState)
    (h : |(ins.afc s.calls).2 - s.wd| ≤ τ) :
    recursiveAutofocus ins tw τ x 0 (n + 1) s =
      (true, { s with
        focus := (ins.afc s.calls).1
        wd := (ins.afc s.calls).2
        calls := s.calls + 1 }, [AfEvent.afcRun]) ∧
    afcCount (recursiveAutofocus ins tw τ x 0 (n + 1) s).2.2 = 1 ∧
    movesOf (recursiveAutofocus ins tw τ x 0 (n + 1) s).2.2 = [] ∧
    (recursiveAutofocus ins tw τ x 0 (n + 1) s).2.1.stageX = s.stageX := by
  have key : recursiveAutofocus ins tw τ x 0 (n + 1) s =
      (true, { s with
        focus := (ins.afc s.calls).1
        wd := (ins.afc s.calls).2
        calls := s.calls + 1 }, [AfEvent.afcRun]) := by
    rw [recursiveAutofocus]
    rw [if_neg (by omega : ¬ (0 : ℤ) < 0)]
    rw [if_neg (by omega : ¬ (0 : ℤ) < 0)]
    rw [if_pos h]
    rfl
  refine ⟨key, ?_, ?_, ?_⟩ <;> rw [key] <;> rfl

/-- C8 witness: the success theorem at a concrete stub that keeps the working
distance at 3: one autofocus event, no moves, success, stage untouched. -/
theorem c8_first_attempt_success_witness :
    recursiveAutofocus afcStubOk 10 1 0 0 1 ⟨0, 1, 3, 0⟩ =
      (true, (⟨0, 5, 3, 1⟩ : AfState), [AfEvent.afcRun]) ∧
    afcCount (recursiveAutofocus afcStubOk 10 1 0 0 1 ⟨0, 1, 3, 0⟩).2.2 = 1 ∧
    movesOf (recursiveAutofocus afcStubOk 10 1 0 0 1 ⟨0, 1, 3, 0⟩).2.2 = [] ∧
    (recursiveAutofocus afcStubOk 10 1 0 0 1 ⟨0, 1, 3, 0⟩).2.1.stageX = 0 :=
  c8_first_attempt_success afcStubOk 10 1 0 0 ⟨0, 1, 3, 0⟩ (by norm_num [afcStubOk])

/-- The move sequence asserted by the claim for an always-failing chain of
budget `n`: `n` forward probe moves, each displaced by `δ` from the previous
probe, followed by the `n` corresponding restore moves in LIFO order. -/
def c1ClaimedMoves (x0 δ : ℚ) (n : ℕ) : List ℚ :=
  ((List.range n).map fun d : ℕ => x0 + ((d : ℚ) + 1) * δ) ++
  (((List.range n).map fun d : ℕ => x0 + (d : ℚ) * δ).reverse)

/-- C1 counterexample: with a stub that always fails the threshold check and
budget 1, the claim predicts one forward probe move and one restore move
(two stage moves); the code performs no probe move at depth 0 (its offset is
0) and issues a single restore move to the anchor. -/
theorem c1_counterexample :
    movesOf (recursiveAutofocus afcStubFail 10 1 0 0 1 ⟨5, 7, 0, 0⟩).2.2 = [0] ∧
    c1ClaimedMoves 0 ((truncInt (0.1 * 10) : ℤ) : ℚ) 1 = [1, 0] ∧
    ([0] : List ℚ) ≠ [1, 0] := by
  have ht : truncInt (0.1 * 10) = 1 := by unfold truncInt; norm_num
  refine ⟨?_, ?_, by norm_num⟩
  · have h := raf_fail_aux afcStubFail 0 10 1 1 0 0 ⟨5, 7, 0, 0⟩ rfl
      (by intro k hk; interval_cases k; norm_num [afcStubFail, wdSeq])
    rw [h]
    simp [failTrace, movesOf, movesOf_append]
  · unfold c1ClaimedMoves
    rw [ht, show List.range 1 = [0] from rfl]
    norm_num

/-- C1 amended: with a stub autofocus whose every attempt exceeds the
threshold, `recursiveAutofocus` with budget `maxAttempts >= 1` (offset 0, as
`Script` calls it) returns `false` after exactly `maxAttempts` autofocus
invocations; the stage-move sequence consists of `maxAttempts - 1` forward
probe moves (depth 0 probes at the anchor without moving; each later probe is
displaced cumulatively by `int(0.1*tileWidth)`) followed by `maxAttempts`
restore moves in reverse (LIFO) order — each frame restoring its own entry
anchor, the last two both targeting the original anchor — ending with the
stage at the original anchor X. -/
theorem c1_amended_fail_trace (ins : Instrument) (tw τ x0 : ℚ) (n : ℕ) (s : AfState)
    (hn : 0 < n) (hc : s.calls = 0) (hδ : 0 < truncInt (0.1 * tw))
    (hf : ∀ k, k < n → τ < |(ins.afc k).2 - wdSeq ins s.wd k|) :
    (recursiveAutofocus ins tw τ x0 0 n s).1 = false ∧
    afcCount (recursiveAutofocus ins tw τ x0 0 n s).2.2 = n ∧
    movesOf (recursiveAutofocus ins tw τ x0 0 n s).2.2 =
      ((List.range (n - 1)).map fun d : ℕ => x0 + ((d : ℚ) + 1) * ((truncInt (0.1 * tw) : ℤ) : ℚ)) ++
      ((((List.range (n - 1)).map fun d : ℕ =>
          x0 + (d : ℚ) * ((truncInt (0.1 * tw) : ℤ) : ℚ)).reverse) ++ [x0]) ∧
    (recursiveAutofocus ins tw τ x0 0 n s).2.1.stageX = x0 := by
  have h := raf_fail_aux ins s.wd tw τ n x0 0 s (by rw [hc]; rfl)
    (by intro k hk; apply hf; omega)
  rw [h]
  refine ⟨rfl, afcCount_failTrace _ _ _ _ _, ?_, by simp [hn.ne']⟩
  exact movesOf_failTrace_top s.focus hδ n x0 hn

/-- C1 amended witness: the amended theorem at the concrete always-failing
stub with budget 2: two autofocus runs, one forward probe, two restores. -/
theorem c1_amended_fail_trace_witness :
    (recursiveAutofocus afcStubFail 10 1 5 0 2 ⟨5, 7, 0, 0⟩).1 = false ∧
    afcCount (recursiveAutofocus afcStubFail 10 1 5 0 2 ⟨5, 7, 0, 0⟩).2.2 = 2 ∧
    movesOf (recursiveAutofocus afcStubFail 10 1 5 0 2 ⟨5, 7, 0, 0⟩).2.2 =
      ((List.range (2 - 1)).map fun d : ℕ => 5 + ((d : ℚ) + 1) * ((truncInt (0.1 * 10) : ℤ) : ℚ)) ++
      ((((List.range (2 - 1)).map fun d : ℕ =>
          5 + (d : ℚ) * ((truncInt (0.1 * 10) : ℤ) : ℚ)).reverse) ++ [5]) ∧
    (recursiveAutofocus afcStubFail 10 1 5 0 2 ⟨5, 7, 0, 0⟩).2.1.stageX = 5 :=
  c1_amended_fail_trace afcStubFail 10 1 5 2 ⟨5, 7, 0, 0⟩ (by norm_num) rfl
    (by unfold truncInt; norm_num)
    (by intro k hk; interval_cases k <;> norm_num [afcStubFail, wdSeq])

/-- C9 counterexample: the claim says that on overall failure the focus value
is left at whatever the last unsuccessful autofocus attempt produced; with the
always-failing stub (which sets the focus coarse value to 0 on every attempt)
and an initial focus of 7, the final focus register is back at 7, not at the 0
the last attempt produced — because every frame restores the old focus before
recursing. -/
theorem c9_counterexample :
    (recursiveAutofocus afcStubFail 10 1 0 0 2 ⟨5, 7, 0, 0⟩).2.1.focus = 7 ∧
    (afcStubFail.afc 1).1 = 0 ∧
    (7 : ℚ) ≠ 0 := by
  have h := raf_fail_aux afcStubFail 0 10 1 2 0 0 ⟨5, 7, 0, 0⟩ rfl
    (by intro k hk; interval_cases k <;> norm_num [afcStubFail, wdSeq])
  rw [h]
  refine ⟨rfl, by norm_num [afcStubFail], by norm_num⟩

/-- C9 amended: when the whole recovery chain fails, the stage X position is
fully rolled back to the original anchor by the per-depth restores, the focus
coarse value is likewise restored to its original pre-chain value (each depth
restores it before recursing), and only the working-distance reading is left
at whatever the last unsuccessful autofocus attempt produced. -/
theorem c9_amended_rollback (ins : Instrument) (tw τ x0 : ℚ) (n : ℕ) (s : AfState)
    (hn : 0 < n) (hc : s.calls = 0)
    (hf : ∀ k, k < n → τ < |(ins.afc k).2 - wdSeq ins s.wd k|) :
    (recursiveAutofocus ins tw τ x0 0 n s).1 = false ∧
    (recursiveAutofocus ins tw τ x0 0 n s).2.1.stageX = x0 ∧
    (recursiveAutofocus ins tw τ x0 0 n s).2.1.focus = s.focus ∧
    (recursiveAutofocus ins tw τ x0 0 n s).2.1.wd = (ins.afc (n - 1)).2 := by
  have h := raf_fail_aux ins s.wd tw τ n x0 0 s (by rw [hc]; rfl)
    (by intro k hk; apply hf; omega)
  rw [h]
  refine ⟨rfl, by simp [hn.ne'], rfl, ?_⟩
  obtain ⟨m, rfl⟩ : ∃ m, n = m + 1 := ⟨n - 1, by omega⟩
  rw [hc]
  simp [wdSeq]

/-- C9 amended witness: the rollback theorem at the concrete always-failing
stub with budget 2: failure, stage back at 0, focus back at 7, working
distance left at the 4 produced by the second (last) attempt. -/
theorem c9_amended_rollback_witness :
    (recursiveAutofocus afcStubFail 10 1 0 0 2 ⟨0, 7, 0, 0⟩).1 = false ∧
    (recursiveAutofocus afcStubFail 10 1 0 0 2 ⟨0, 7, 0, 0⟩).2.1.stageX = 0 ∧
    (recursiveAutofocus afcStubFail 10 1 0 0 2 ⟨0, 7, 0, 0⟩).2.1.focus = 7 ∧
    (recursiveAutofocus afcStubFail 10 1 0 0 2 ⟨0, 7, 0, 0⟩).2.1.wd = (afcStubFail.afc (2 - 1)).2 :=
  c9_amended_rollback afcStubFail 10 1 0 2 ⟨0, 7, 0, 0⟩ (by norm_num) rfl
    (by intro k hk; interval_cases k <;> norm_num [afcStubFail, wdSeq])

/-- Alternating row reversal: `oddRev b l` reverses the head row when `b` is
true and alternates down the list.  `oddRev false` is numpy's
`a[1::2] = np.flip(a[1::2], axis=1)` (rows at odd indices column-reversed). -/
def oddRev {α : Type} : Bool → List (List α) → List (List α)
  | _, [] => []
  | b, r :: rs => (if b then r.reverse else r) :: oddRev (!b) rs

/-- `zigzagFlatten` (source lines 307-315) with numpy view semantics made
explicit.  `np.flip(array_2d, axis=0)` is a view sharing the caller's buffer,
so the in-place assignment `array_2d[1::2] = np.flip(array_2d[1::2], axis=1)`
writes through to the caller's grid.  Returns the pair (returned value,
caller's grid after the call): the returned value is
`np.reshape(array_2d, (1, -1))`, a 1 x (rows*cols) two-dimensional row vector
(a singleton list holding the flattened data), and the caller's grid is the
modified buffer seen in its original row order. -/
def zigzagFlatten {α : Type} (g : List (List α)) : List (List α) × List (List α) :=
  let flipped := g.reverse
  let modified := oddRev false flipped
  ([modified.flatten], modified.reverse)

/-- An all-`a` grid of `r` rows and `c` columns. -/
def mkGrid {α : Type} (r c : ℕ) (a : α) : List (List α) := List.replicate r (List.replicate c a)

/-- `oddRev` preserves an all-equal grid (each row is its own reverse). -/
theorem oddRev_replicate {α : Type} (c : ℕ) (a : α) :
    ∀ (r : ℕ) (b : Bool), oddRev b (List.replicate r (List.replicate c a)) =
      List.replicate r (List.replicate c a) := by
  intro r
  induction r with
  | zero => intro b; rfl
  | succ r ih =>
    intro b
    rw [List.replicate_succ, oddRev, ih, List.reverse_replicate]
    split <;> rfl

/-- Flattening a replicated grid gives a replicated list. -/
theorem flatten_replicate {α : Type} (c : ℕ) (a : α) :
    ∀ r : ℕ, (List.replicate r (List.replicate c a)).flatten = List.replicate (r * c) a := by
  intro r
  induction r with
  | zero => simp
  | succ r ih =>
    rw [List.replicate_succ, List.flatten_cons, ih]
    rw [show (r + 1) * c = c + r * c from by ring, List.replicate_add]

/-- `oddRev` preserves length. -/
theorem oddRev_length {α : Type} : ∀ (l : List (List α)) (b : Bool),
    (oddRev b l).length = l.length := by
  intro l
  induction l with
  | nil => intro b; rfl
  | cons x xs ih => intro b; rw [oddRev]; simp [ih]

/-- `oddRev` over a snoc: the appended row is reversed exactly when its
alternating mark (index parity relative to the start mark) says so. -/
theorem oddRev_append_singleton {α : Type} : ∀ (xs : List (List α)) (b : Bool) (y : List α),
    oddRev b (xs ++ [y]) =
      oddRev b xs ++ [if (if xs.length % 2 = 0 then b else !b) then y.reverse else y] := by
  intro xs
  induction xs with
  | nil => intro b y; simp [oddRev]
  | cons x xs ih =>
    intro b y
    simp only [List.cons_append, oddRev, List.length_cons, List.append_eq]
    rw [ih (!b) y]
    by_cases hp : xs.length % 2 = 0
    · simp [hp, show ¬((xs.length + 1) % 2 = 0) from by omega]
    · simp [hp, show (xs.length + 1) % 2 = 0 from by omega]

/-- Reversing an alternately-reversed list alternates from the other end:
the start mark of the reversed list is the mark of the original last row. -/
theorem oddRev_reverse {α : Type} : ∀ (l : List (List α)) (b : Bool),
    (oddRev b l).reverse = oddRev (if l.length % 2 = 1 then b else !b) l.reverse := by
  intro l
  induction l with
  | nil => intro b; rfl
  | cons x xs ih =>
    intro b
    simp only [oddRev, List.reverse_cons, List.length_cons]
    rw [ih (!b)]
    rw [oddRev_append_singleton]
    rw [List.length_reverse]
    by_cases hp : xs.length % 2 = 0
    · simp [hp, show ¬(xs.length % 2 = 1) from by omega,
        show (xs.length + 1) % 2 = 1 from by omega]
    · simp [hp, show xs.length % 2 = 1 from by omega,
        show ¬((xs.length + 1) % 2 = 1) from by omega]

/-- C6: the code returns `np.reshape(..., (1, -1))`, a 1 x (rows*cols) row
vector, not a flat sequence: on an all-true grid the returned value is a
singleton list whose single element is the all-true row of length
`rows*cols`, so its own length is 1 and differs from the planned tile count
(2*3 = 6 on the failing input) that `Script` compares it against — while the
zig-zag position list itself does have length `rows*cols`. -/
theorem c6_flatten_row_vector :
    (∀ r c : ℕ, (zigzagFlatten (mkGrid r c true)).1 = [List.replicate (r * c) true]) ∧
    (zigzagFlatten (mkGrid 2 3 true)).1.length = 1 ∧
    (1 : ℕ) ≠ 2 * 3 ∧
    (∀ (xS yS effW effH : ℚ) (c r : ℕ), (capturePositionsList xS yS effW effH c r).length = r * c) := by
  refine ⟨?_, rfl, by norm_num, fun xS yS effW effH c r => capturePositionsList_length xS yS effW effH c r⟩
  intro r c
  simp only [zigzagFlatten, mkGrid]
  rw [List.reverse_replicate, oddRev_replicate, flatten_replicate]

/-- C10 counterexample: `zigzagFlatten` mutates the grid it is given — on a
3 x 2 grid whose middle row is asymmetric, the caller's grid after the call
differs from the grid passed in (the middle row has been reversed in place
through the numpy view). -/
theorem c10_counterexample :
    (zigzagFlatten [[true, true], [true, false], [false, false]]).2 ≠
      [[true, true], [true, false], [false, false]] := by
  decide

/-- C10 amended: `zigzagFlatten` returns its flattened (1 x n) result but
mutates the grid it was given: the caller's grid after the call is the
original with every row whose flipped index is odd (alternating upward from
the second-to-last row) reversed in place; the grid keeps its length.  The
rows at the remaining indices are unchanged. -/
theorem c10_amended_mutation {α : Type} (g : List (List α)) :
    (zigzagFlatten g).2 = oddRev (decide (g.length % 2 = 0)) g ∧
    (zigzagFlatten g).2.length = g.length := by
  have key : (zigzagFlatten g).2 = oddRev (decide (g.length % 2 = 0)) g := by
    show (oddRev false g.reverse).reverse = _
    rw [oddRev_reverse g.reverse false]
    rw [List.reverse_reverse, List.length_reverse]
    by_cases hp : g.length % 2 = 0
    · simp [hp, show ¬(g.length % 2 = 1) from by omega]
    · simp [hp, show g.length % 2 = 1 from by omega]
  refine ⟨key, ?_⟩
  rw [key, oddRev_length]

/-- Side-effecting instrument calls made by the acquisition phase of `Script`
(source lines 80-196), in order. -/
inductive ScriptEvent
  | setMagnification (v : ℚ)
  | stageMoveXY (x y : ℤ)
  | stageMoveX (x : ℚ)
  | runAbc
  | runAfc
  | setFocusCoarse (c : ℚ)
  | runAsc
  | setHv (b : Bool)
  | runCapture
  | runScan
deriving DecidableEq

/-- Rendering of an autofocus-chain event as a `Script`-level instrument call. -/
def afEventToScript : AfEvent → ScriptEvent
  | AfEvent.move x => ScriptEvent.stageMoveX x
  | AfEvent.afcRun => ScriptEvent.runAfc
  | AfEvent.setFocus c => ScriptEvent.setFocusCoarse c

/-- The flags and numeric settings driving `Script` (source lines 19-44):
USE_ABC, USE_AUTO_FOCUS, USE_AUTO_ASTIGMA, HV_OFF_ON_END, FOCUS_THRESHOLD,
AFC_MAG and MAX_AFC_RECURSIONS. -/
structure ScriptConfig where
  useAbc : Bool
  useAutoFocus : Bool
  useAutoAstigma : Bool
  hvOffOnEnd : Bool
  focusThreshold : ℚ
  afcMag : ℚ
  maxAfcRecursions : ℕ

/-- The per-tile capture loop of `Script` (source lines 117-184): skip masked
tiles, otherwise move the stage to the tile, optionally run ABC, optionally
run the recursive autofocus (raising the magnification first when below
AFC_MAG), optionally run the astigmatism correction, restore the
magnification, capture, and resume scanning.  Threads the instrument state and
returns the ordered list of calls. -/
def captureLoop (ins : Instrument) (cfg : ScriptConfig) (magValue tileWidth : ℚ)
    (mask : Option (List Bool)) : List (ℤ × ℤ) → ℕ → AfState → List ScriptEvent × AfState
  | [], _, s => ([], s)
  | (X, Y) :: rest, i, s =>
    if (match mask with | some m => !(m.getD i false) | none => false) then
      captureLoop ins cfg magValue tileWidth mask rest (i + 1) s
    else
      let s1 : AfState := { s with stageX := (X : ℚ) }
      let afPart : List ScriptEvent × AfState :=
        if cfg.useAutoFocus then
          ((if magValue < cfg.afcMag then [ScriptEvent.setMagnification cfg.afcMag] else []) ++
            (recursiveAutofocus ins tileWidth cfg.focusThreshold (X : ℚ) 0
              cfg.maxAfcRecursions s1).2.2.map afEventToScript,
           (recursiveAutofocus ins tileWidth cfg.focusThreshold (X : ℚ) 0
              cfg.maxAfcRecursions s1).2.1)
        else ([], s1)
      let rest' := captureLoop ins cfg magValue tileWidth mask rest (i + 1) afPart.2
      ([ScriptEvent.stageMoveXY X Y] ++
        (if cfg.useAbc then [ScriptEvent.runAbc] else []) ++
        afPart.1 ++
        (if cfg.useAutoAstigma then [ScriptEvent.runAsc] else []) ++
        [ScriptEvent.setMagnification magValue, ScriptEvent.runCapture, ScriptEvent.runScan] ++
        rest'.1,
       rest'.2)

/-- The acquisition phase of `Script` (source lines 80-196), parametrized by
the precomputed capture positions and the optional flattened mask: set the
magnification (line 81), check the flattened mask length against the planned
positions (lines 105-108: log and `Exit()` — abort — on mismatch, before
`SetHv` and before any stage move or capture), then switch HV on, run the
capture loop, return to the start position, and optionally switch HV off.
Returns the ordered instrument calls and whether the run aborted at the mask
check. -/
def runAcquisition (ins : Instrument) (cfg : ScriptConfig) (magValue tileWidth : ℚ)
    (startCoords : ℤ × ℤ) (capturePositions : List (ℤ × ℤ)) (mask : Option (List Bool))
    (s0 : AfState) : List ScriptEvent × Bool :=
  let pre : List ScriptEvent := [ScriptEvent.setMagnification magValue]
  if (match mask with
      | some m => decide (m.length ≠ capturePositions.length)
      | none => false) then
    (pre, true)
  else
    (pre ++ [ScriptEvent.setHv true] ++
      (captureLoop ins cfg magValue tileWidth mask capturePositions 0 s0).1 ++
      [ScriptEvent.stageMoveXY startCoords.1 startCoords.2] ++
      (if cfg.hvOffOnEnd then [ScriptEvent.setHv false] else []),
     false)

/-- C7: when a mask is supplied and its flattened length differs from the
number of planned capture positions, the whole acquisition aborts at the mask
check before `SetHv`: the only call issued is the initial SetMagnification, so
no stage move (neither XY nor X-only) and no capture happens for that run,
and no tile is visited. -/
theorem c7_mask_mismatch_aborts (ins : Instrument) (cfg : ScriptConfig)
    (magValue tileWidth : ℚ) (startCoords : ℤ × ℤ) (capturePositions : List (ℤ × ℤ))
    (m : List Bool) (s0 : AfState) (hne : m.length ≠ capturePositions.length) :
    runAcquisition ins cfg magValue tileWidth startCoords capturePositions (some m) s0 =
      ([ScriptEvent.setMagnification magValue], true) ∧
    (∀ x y, ScriptEvent.stageMoveXY x y ∉
      (runAcquisition ins cfg magValue tileWidth startCoords capturePositions (some m) s0).1) ∧
    (∀ x, ScriptEvent.stageMoveX x ∉
      (runAcquisition ins cfg magValue tileWidth startCoords capturePositions (some m) s0).1) ∧
    ScriptEvent.runCapture ∉
      (runAcquisition ins cfg magValue tileWidth startCoords capturePositions (some m) s0).1 := by
  have key : runAcquisition ins cfg magValue tileWidth startCoords capturePositions (some m) s0 =
      ([ScriptEvent.setMagnification magValue], true) := by
    simp only [runAcquisition]
    rw [if_pos (decide_eq_true hne)]
  refine ⟨key, ?_, ?_, ?_⟩ <;> rw [key] <;> simp

/-- C7 witness: the abort theorem at a concrete mismatched mask (flattened
length 1 against 0 planned positions) under the script's default flags. -/
theorem c7_mask_mismatch_aborts_witness :
    runAcquisition afcStubOk ⟨false, true, false, true, 100, 5000, 5⟩ 100 1 (0, 0) [] (some [true])
        ⟨0, 0, 0, 0⟩ =
      ([ScriptEvent.setMagnification 100], true) ∧
    (∀ x y, ScriptEvent.stageMoveXY x y ∉
      (runAcquisition afcStubOk ⟨false, true, false, true, 100, 5000, 5⟩ 100 1 (0, 0) []
        (some [true]) ⟨0, 0, 0, 0⟩).1) ∧
    (∀ x, ScriptEvent.stageMoveX x ∉
      (runAcquisition afcStubOk ⟨false, true, false, true, 100, 5000, 5⟩ 100 1 (0, 0) []
        (some [true]) ⟨0, 0, 0, 0⟩).1) ∧
    ScriptEvent.runCapture ∉
      (runAcquisition afcStubOk ⟨false, true, false, true, 100, 5000, 5⟩ 100 1 (0, 0) []
        (some [true]) ⟨0, 0, 0, 0⟩).1 :=
  c7_mask_mismatch_aborts afcStubOk ⟨false, true, false, true, 100, 5000, 5⟩ 100 1 (0, 0) []
    [true] ⟨0, 0, 0, 0⟩ (by decide)

end AutoMontage
